import Mathlib

/-!
# Verification of `split.py` (kotlin-for-python-developers)

`split.py` reads `README.md`, splits it into per-section files at level-2
headings, rewrites internal `](#slug)` links against the collected
section/subsection slug registries, and appends prev/next navigation footers.

We embed the program shallowly.  Python 2 `str` values are byte strings and
all character predicates the program uses (`str.isalnum`, `str.lower`) act on
ASCII codes under the default C locale, so a line of text is modelled as a
`List Nat` of character codes.  `S` converts a Lean string literal to that
representation for writing concrete inputs.
-/

/-- A Python 2 string: a list of character codes. -/
abbrev Str : Type := List Nat

/-- Character codes of a string literal (for concrete test inputs). -/
def S (s : String) : Str := s.data.map Char.toNat

/-- `c.isalnum()` for a Python 2 byte under the C locale: ASCII digits and
letters only. -/
def pyIsAlnum (b : Nat) : Bool :=
  (48 ≤ b && b ≤ 57) || (65 ≤ b && b ≤ 90) || (97 ≤ b && b ≤ 122)

/-- `str.lower()` on one Python 2 byte: ASCII `A`-`Z` shifted to `a`-`z`. -/
def pyLower (b : Nat) : Nat :=
  if 65 ≤ b && b ≤ 90 then b + 32 else b

/-- The character filter of `slugify`: keep alphanumerics, spaces, hyphens
(`c.isalnum() or c in [" ", "-"]`, line 28). -/
def keepChar (b : Nat) : Bool :=
  pyIsAlnum b || b == 32 || b == 45

/-- `slugify` (line 27-28):
`"".join(c for c in title if c.isalnum() or c in [" ", "-"]).replace(" ", "-").lower()`. -/
def slugify (title : Str) : Str :=
  ((title.filter keepChar).map (fun b => if b = 32 then 45 else b)).map pyLower

/-! ## The link rewriter

`link_regex = re.compile(r"\]\(#([-a-zA-Z0-9]+)\)")` (line 9) and
`link_regex.sub(substitute_link, line)` (line 62).  We model the character
class, the leftmost-nonoverlapping match at a position, and the `re.sub`
scan.  The subsection registry is a Python dict whose values are either a
section slug or `None` (the Python variable `current_section_slug` before any
level-2 heading is seen); we model it as an association list where the most
recent registration is consed in front, matching dict-overwrite lookups. -/

/-- One character of the regex class `[-a-zA-Z0-9]`. -/
def identChar (b : Nat) : Bool :=
  b == 45 || (48 ≤ b && b ≤ 57) || (65 ≤ b && b ≤ 90) || (97 ≤ b && b ≤ 122)

/-- Attempt to match `\]\(#([-a-zA-Z0-9]+)\)` at the head of the line
(codes: `]` = 93, `(` = 40, `#` = 35, `)` = 41).  Returns the captured
identifier and the remainder after the match. -/
def matchAt : Str → Option (Str × Str)
  | a :: b :: c :: t =>
    if a = 93 ∧ b = 40 ∧ c = 35 ∧ t.takeWhile identChar ≠ []
        ∧ (t.dropWhile identChar).head? = some 41 then
      some (t.takeWhile identChar, (t.dropWhile identChar).tail)
    else none
  | _ => none

/-- Python dict lookup on the subsection registry (first = most recent). -/
def lookupOwner : List (Str × Option Str) → Str → Option (Option Str)
  | [], _ => none
  | (k, v) :: rest, key => if k = key then some v else lookupOwner rest key

/-- `"{0}".format(owner)`: a slug string, or `"None"` when the registered
owner was Python's `None`. -/
def ownerStr : Option Str → Str
  | some s => s
  | none => S "None"

/-- `substitute_link` (lines 17-25).  Besides the replacement string we
return the list of diagnostics printed (`print "Unknown:", link`). -/
def substitute_link (secs : List Str) (subs : List (Str × Option Str))
    (link : Str) : Str × List Str :=
  if link ∈ secs then (S "](" ++ link ++ S ".html)", [])
  else
    match lookupOwner subs link with
    | some owner => (S "](" ++ ownerStr owner ++ S ".html#" ++ link ++ S ")", [])
    | none => (link, [S "Unknown: " ++ link])

/-- Fuelled `re.sub` scan: at each position try `matchAt`; on a match emit
the substitution and continue after the match, otherwise copy one character.
The fuel only serves structural recursion; `linkSub` supplies enough. -/
def linkSubF (secs : List Str) (subs : List (Str × Option Str)) :
    Nat → Str → Str × List Str
  | _, [] => ([], [])
  | 0, l => (l, [])
  | n + 1, c :: rest =>
    match matchAt (c :: rest) with
    | some (id, rem) =>
      let r := substitute_link secs subs id
      let s := linkSubF secs subs n rem
      (r.1 ++ s.1, r.2 ++ s.2)
    | none =>
      let s := linkSubF secs subs n rest
      (c :: s.1, s.2)

/-- `link_regex.sub(substitute_link, line)` (line 62), paired with the
diagnostics printed while rewriting the line. -/
def linkSub (secs : List Str) (subs : List (Str × Option Str)) (l : Str) :
    Str × List Str :=
  linkSubF secs subs l.length l

/-! ## The segmenter

Lines 30-55: a fold over the lines of `README.md`.  The Python variable
`current_section` aliases the line buffer of the most recently appended
entry of `sections`, so appending to the current section is modelled by
editing the last entry of the section list.  `break` on the closing `---`
line is modelled with a `done` flag that freezes the state. -/

/-- Segmenter state: the module-level variables of `split.py`
(lines 4-10) plus a `done` flag standing for the `break` on line 38. -/
structure SegState where
  seen_preamble : Bool
  done : Bool
  section_slugs : List Str
  current_section_slug : Option Str
  sections : List (Str × Str × List Str)
  subsection_slugs : List (Str × Option Str)
deriving DecidableEq

/-- Apply `f` to the last element of a list (no-op on `[]`). -/
def modifyLast {α : Type} (f : α → α) : List α → List α
  | [] => []
  | [x] => [f x]
  | x :: y :: rest => x :: modifyLast f (y :: rest)

/-- `current_section.append(l)`: the current section is the last entry of
`sections`. -/
def appendCur (st : SegState) (l : Str) : SegState :=
  { st with sections := modifyLast (fun s => (s.1, s.2.1, s.2.2 ++ [l])) st.sections }

/-- Python truthiness test `not current_section` (line 48): the current
section's line buffer is empty. -/
def current_empty (st : SegState) : Bool :=
  match st.sections.getLast? with
  | some s => s.2.2.isEmpty
  | none => true

/-- One iteration of the `for line in f` loop (lines 31-55). -/
def step (st : SegState) (line : Str) : SegState :=
  if st.done then st
  else if !st.seen_preamble then
    if line = S "---\n" then
      { st with seen_preamble := true,
                sections := st.sections ++ [(S "Introduction", S "introduction", [])] }
    else st
  else if line = S "---\n" then { st with done := true }
  else if (S "## ").isPrefixOf line then
    let title := (line.drop 3).dropLast
    if title = S "Contents" then appendCur st line
    else
      let slug := slugify title
      { st with current_section_slug := some slug,
                section_slugs := slug :: st.section_slugs,
                sections := st.sections ++ [(title, slug, [])] }
  else if current_empty st && line = S "\n" then st
  else if (S "#").isPrefixOf line then
    let st' := appendCur st (line.drop 1)
    let title := ((line.filter (· ≠ 35)).drop 1).dropLast
    { st' with subsection_slugs :=
        (slugify title, st.current_section_slug) :: st'.subsection_slugs }
  else appendCur st line

/-- The initial values of the module-level variables (lines 4-10). -/
def initState : SegState :=
  { seen_preamble := false, done := false, section_slugs := [],
    current_section_slug := none, sections := [], subsection_slugs := [] }

/-- Running the whole segmentation loop over the document's lines. -/
def segmentDoc (doc : List Str) : SegState := doc.foldl step initState

/-! ## Navigation and per-section rendering

Lines 57-71: for the section at index `i`, every line is rewritten through
`link_regex.sub`, and then the navigation footer
`u"\n\n---\n\n{0}\n".format(" | ".join(navigation))` is appended. -/

/-- `u"[← Previous: {0}]({1}.html)".format(title, slug)` (line 65). -/
def prevLink (p : Str × Str × List Str) : Str :=
  S "[← Previous: " ++ p.1 ++ S "](" ++ p.2.1 ++ S ".html)"

/-- `u"[Next: {0} →]({1}.html)".format(title, slug)` (line 67). -/
def nextLink (p : Str × Str × List Str) : Str :=
  S "[Next: " ++ p.1 ++ S " →](" ++ p.2.1 ++ S ".html)"

/-- The `navigation` list of lines 63-67: a "Previous" entry when `i > 0`,
then a "Next" entry when `i < len(sections) - 1`. -/
def navigation (sections : List (Str × Str × List Str)) (i : Nat) : List Str :=
  (if 0 < i then [prevLink (sections.getD (i - 1) ([], [], []))] else []) ++
  (if i < sections.length - 1 then [nextLink (sections.getD (i + 1) ([], [], []))] else [])

/-- Python's `sep.join(pieces)`. -/
def joinSep (sep : Str) : List Str → Str
  | [] => []
  | [x] => x
  | x :: y :: rest => x ++ sep ++ joinSep sep (y :: rest)

/-- The footer appended on line 68:
`u"\n\n---\n\n{0}\n".format(" | ".join(navigation))`. -/
def navFooter (sections : List (Str × Str × List Str)) (i : Nat) : Str :=
  S "\n\n---\n\n" ++ joinSep (S " | ") (navigation sections i) ++ S "\n"

/-- The final line buffer of section `i` as written to its file (after the
copyright notice): lines rewritten in place (lines 61-62), then the
navigation footer appended (line 68). -/
def renderSection (secs : List Str) (subs : List (Str × Option Str))
    (sections : List (Str × Str × List Str)) (i : Nat) : List Str :=
  ((sections.getD i ([], [], [])).2.2).map (fun l => (linkSub secs subs l).1) ++
    [navFooter sections i]

/-- The idempotence results need that every owner stored in the subsection
registry renders as a run of identifier characters; the program only ever
stores `None` or a `slugify` result, so this holds for every registry the
program builds. -/
def ownersOK (subs : List (Str × Option Str)) : Prop :=
  ∀ p ∈ subs, (ownerStr p.2).all identChar = true

/-! ## Evaluation checks on concrete inputs -/

example : S "ab" = [97, 98] := by decide

example : S "](#" = [93, 40, 35] := rfl

example : slugify (S "Hello, World!") = S "hello-world" := by decide
example : slugify (S "Detail") = S "detail" := by decide

example : matchAt (S "](#alpha) x") = some (S "alpha", S " x") := by decide
example : matchAt (S "](#) x") = none := by decide
example : matchAt (S "](#a_b)") = none := by decide

example :
    linkSub [S "alpha"] [] (S "see [x](#alpha)") = (S "see [x](alpha.html)", []) := by
  decide

example :
    linkSub [] [(S "detail", some (S "alpha"))] (S "see [x](#detail)")
      = (S "see [x](alpha.html#detail)", []) := by
  decide

example :
    linkSub [] [] (S "see [x](#nowhere)")
      = (S "see [xnowhere", [S "Unknown: nowhere"]) := by
  decide

example :
    (segmentDoc [S "pre\n", S "---\n", S "\n", S "## Alpha\n", S "content A\n",
              S "## Beta\n", S "see [x](#alpha)\n", S "---\n", S "junk\n"]).sections
      = [(S "Introduction", S "introduction", []),
         (S "Alpha", S "alpha", [S "content A\n"]),
         (S "Beta", S "beta", [S "see [x](#alpha)\n"])] := by
  decide

example :
    (segmentDoc [S "---\n", S "## Alpha\n", S "### Detail\n"]).subsection_slugs
      = [(S "detail", some (S "alpha"))]
    ∧ (segmentDoc [S "---\n", S "## Alpha\n", S "### Detail\n"]).sections
      = [(S "Introduction", S "introduction", []),
         (S "Alpha", S "alpha", [S "## Detail\n"])] := by
  decide

example :
    navFooter [(S "Introduction", S "introduction", [])] 0 = S "\n\n---\n\n\n" := by
  decide

example :
    navFooter [(S "Introduction", S "introduction", []),
               (S "Alpha", S "alpha", []), (S "Beta", S "beta", [])] 1
      = S "\n\n---\n\n[← Previous: Introduction](introduction.html) | [Next: Beta →](beta.html)\n" := by
  decide

/-! ## Lemmas about the regex match and the `re.sub` scan -/

theorem takeWhile_ident_append (id rem : Str) (h : id.all identChar = true) :
    (id ++ 41 :: rem).takeWhile identChar = id
    ∧ (id ++ 41 :: rem).dropWhile identChar = 41 :: rem := by
  induction id with
  | nil => simp [List.takeWhile, List.dropWhile, identChar]
  | cons c cs ih =>
    simp only [List.all_cons, Bool.and_eq_true] at h
    have := ih h.2
    simp [List.takeWhile, List.dropWhile, h.1, this.1, this.2]

/-- A successful regex match at the head of the line: the constructed form. -/
theorem matchAt_pat (id rem : Str) (h1 : id ≠ []) (h2 : id.all identChar = true) :
    matchAt (93 :: 40 :: 35 :: (id ++ 41 :: rem)) = some (id, rem) := by
  have h := takeWhile_ident_append id rem h2
  simp [matchAt, h.1, h.2, h1]

/-- Conversely, a successful match decomposes the line into the literal
`](#`, a nonempty run of identifier characters, and `)`. -/
theorem matchAt_some (l id rem : Str) (h : matchAt l = some (id, rem)) :
    l = 93 :: 40 :: 35 :: (id ++ 41 :: rem) ∧ id ≠ [] ∧ id.all identChar = true := by
  match l with
  | [] => simp [matchAt] at h
  | [a] => simp [matchAt] at h
  | [a, b] => simp [matchAt] at h
  | a :: b :: c :: t =>
    rw [matchAt] at h
    split at h
    · rename_i hc
      obtain ⟨ha, hb, hcc, hne, hhd⟩ := hc
      rw [Option.some.injEq, Prod.mk.injEq] at h
      obtain ⟨hid, hrem⟩ := h
      subst ha; subst hb; subst hcc
      have hdw : t.dropWhile identChar = 41 :: rem := by
        cases hd : t.dropWhile identChar with
        | nil => rw [hd] at hhd; simp at hhd
        | cons x xs =>
          rw [hd] at hhd
          simp only [List.head?_cons, Option.some.injEq] at hhd
          rw [hd] at hrem
          simp only [List.tail_cons] at hrem
          rw [hhd, hrem]
      refine ⟨?_, ?_, ?_⟩
      · simp only [List.cons.injEq, true_and]
        rw [← hid, ← hdw]
        exact (List.takeWhile_append_dropWhile identChar t).symm
      · rw [← hid]; exact hne
      · rw [← hid]
        exact List.all_eq_true.2 (fun x hx => List.mem_takeWhile_imp hx)
    · exact absurd h.symm (by simp)

/-- No match at a position whose first character is not `]`. -/
theorem matchAt_ne_bracket (c : Nat) (l : Str) (h : c ≠ 93) :
    matchAt (c :: l) = none := by
  match l with
  | [] => simp [matchAt]
  | [a] => simp [matchAt]
  | a :: b :: t => simp [matchAt, h]

theorem matchAt_some_length (l id rem : Str) (h : matchAt l = some (id, rem)) :
    rem.length + 5 ≤ l.length := by
  obtain ⟨hl, hne, -⟩ := matchAt_some l id rem h
  subst hl
  have : 1 ≤ id.length := by
    cases id with
    | nil => exact absurd rfl hne
    | cons _ _ => simp
  simp [List.length_append]
  omega

/-- Any sufficient fuel computes `re.sub`. -/
theorem linkSubF_eq (secs : List Str) (subs : List (Str × Option Str)) :
    ∀ n l, l.length ≤ n → linkSubF secs subs n l = linkSub secs subs l := by
  intro n
  induction n using Nat.strong_induction_on with
  | _ n ih =>
    intro l hl
    cases l with
    | nil => cases n <;> rfl
    | cons c rest =>
      cases n with
      | zero => simp at hl
      | succ m =>
        have hrest : rest.length ≤ m := by simpa using hl
        show linkSubF secs subs (m + 1) (c :: rest)
          = linkSubF secs subs (c :: rest).length (c :: rest)
        simp only [List.length_cons]
        cases hm : matchAt (c :: rest) with
        | some p =>
          obtain ⟨id, rem⟩ := p
          have h5 : rem.length + 5 ≤ rest.length + 1 := matchAt_some_length _ _ _ hm
          simp only [linkSubF, hm]
          rw [ih m (by omega) rem (by omega), ih rest.length (by omega) rem (by omega)]
        | none =>
          simp only [linkSubF, hm]
          rw [ih m (by omega) rest hrest]
          rfl

theorem linkSub_nil (secs : List Str) (subs : List (Str × Option Str)) :
    linkSub secs subs [] = ([], []) := rfl

/-- Unfolding `re.sub` at a matching position: substitute, then continue
after the match. -/
theorem linkSub_match (secs : List Str) (subs : List (Str × Option Str))
    (c : Nat) (rest id rem : Str) (h : matchAt (c :: rest) = some (id, rem)) :
    linkSub secs subs (c :: rest)
      = ((substitute_link secs subs id).1 ++ (linkSub secs subs rem).1,
         (substitute_link secs subs id).2 ++ (linkSub secs subs rem).2) := by
  have h5 : rem.length + 5 ≤ rest.length + 1 := matchAt_some_length _ _ _ h
  show linkSubF secs subs (rest.length + 1) (c :: rest) = _
  simp only [linkSubF, h]
  rw [linkSubF_eq secs subs rest.length rem (by omega)]

/-- Unfolding `re.sub` at a non-matching position: copy one character. -/
theorem linkSub_copy (secs : List Str) (subs : List (Str × Option Str))
    (c : Nat) (rest : Str) (h : matchAt (c :: rest) = none) :
    linkSub secs subs (c :: rest)
      = (c :: (linkSub secs subs rest).1, (linkSub secs subs rest).2) := by
  show linkSubF secs subs (rest.length + 1) (c :: rest) = _
  simp only [linkSubF, h]
  rfl

/-- `re.sub` copies any run of match-free characters (no `]` can start a
match). -/
theorem linkSub_copy_all (secs : List Str) (subs : List (Str × Option Str))
    (a l : Str) (h : ∀ c ∈ a, c ≠ 93) :
    linkSub secs subs (a ++ l)
      = (a ++ (linkSub secs subs l).1, (linkSub secs subs l).2) := by
  induction a with
  | nil => simp
  | cons c cs ih =>
    have hnone : matchAt (c :: (cs ++ l)) = none :=
      matchAt_ne_bracket _ _ (h c (by simp))
    rw [List.cons_append, linkSub_copy _ _ _ _ hnone,
        ih (fun x hx => h x (by simp [hx]))]
    simp

/-- `re.sub` on a line that starts with a well-formed reference `](#id)`. -/
theorem linkSub_pat (secs : List Str) (subs : List (Str × Option Str))
    (id rest : Str) (h1 : id ≠ []) (h2 : id.all identChar = true) :
    linkSub secs subs (93 :: 40 :: 35 :: (id ++ 41 :: rest))
      = ((substitute_link secs subs id).1 ++ (linkSub secs subs rest).1,
         (substitute_link secs subs id).2 ++ (linkSub secs subs rest).2) :=
  linkSub_match _ _ _ _ _ _ (matchAt_pat id rest h1 h2)

/-! ## Lemmas about `substitute_link` -/

/-- Resolution, first case: a known section slug (lines 19-20). -/
theorem substitute_link_sec (secs : List Str) (subs : List (Str × Option Str))
    (link : Str) (h : link ∈ secs) :
    substitute_link secs subs link = (S "](" ++ link ++ S ".html)", []) := by
  simp [substitute_link, h]

/-- Resolution, second case: a known subsection slug (lines 21-22). -/
theorem substitute_link_sub (secs : List Str) (subs : List (Str × Option Str))
    (link : Str) (owner : Option Str) (h1 : link ∉ secs)
    (h2 : lookupOwner subs link = some owner) :
    substitute_link secs subs link
      = (S "](" ++ ownerStr owner ++ S ".html#" ++ link ++ S ")", []) := by
  simp [substitute_link, h1, h2]

/-- Resolution, third case: unresolved (lines 23-25) — the bare identifier
is returned and a diagnostic is printed. -/
theorem substitute_link_unknown (secs : List Str) (subs : List (Str × Option Str))
    (link : Str) (h1 : link ∉ secs) (h2 : lookupOwner subs link = none) :
    substitute_link secs subs link = (link, [S "Unknown: " ++ link]) := by
  simp [substitute_link, h1, h2]

/-! ## Claim C1 — unresolved links -/

/-- C1 (amended).  For a line containing a link whose fragment target
resolves to neither a section nor a subsection slug, `re.sub` replaces the
matched `](#target)` markup by the bare target identifier — so the link's
visible text and its opening bracket remain, immediately followed by the
identifier — and emits exactly one diagnostic naming the unresolved target;
processing continues with the rest of the line (non-fatal). -/
theorem C1_unresolved_link (secs : List Str) (subs : List (Str × Option Str))
    (pre id rest : Str) (hpre : ∀ c ∈ pre, c ≠ 93)
    (h1 : id ≠ []) (h2 : id.all identChar = true)
    (h3 : id ∉ secs) (h4 : lookupOwner subs id = none) :
    linkSub secs subs (pre ++ (S "](#" ++ id ++ S ")") ++ rest)
      = (pre ++ id ++ (linkSub secs subs rest).1,
         (S "Unknown: " ++ id) :: (linkSub secs subs rest).2) := by
  have e : pre ++ (S "](#" ++ id ++ S ")") ++ rest
      = pre ++ (93 :: 40 :: 35 :: (id ++ 41 :: rest)) := by
    have e1 : S "](#" = [93, 40, 35] := rfl
    have e2 : S ")" = [41] := rfl
    rw [e1, e2]; simp
  rw [e, linkSub_copy_all secs subs pre _ hpre,
      linkSub_pat secs subs id rest h1 h2,
      substitute_link_unknown secs subs id h3 h4]
  simp

/-- Witness for C1: the spec's own example `see [x](#nowhere)` with empty
registries. -/
theorem C1_witness :
    linkSub [] [] (S "see [x" ++ (S "](#" ++ S "nowhere" ++ S ")") ++ [])
      = (S "see [x" ++ S "nowhere" ++ (linkSub [] [] []).1,
         (S "Unknown: " ++ S "nowhere") :: (linkSub [] [] []).2) :=
  C1_unresolved_link [] [] (S "see [x") (S "nowhere") []
    (by decide) (by decide) (by decide) (by decide) (by decide)

/-- Counterexample for C1 as stated: `see [x](#nowhere)` does NOT rewrite to
`see x`; the link markup is not dropped around the visible text — the
program yields `see [xnowhere` (with the diagnostic `Unknown: nowhere`). -/
theorem C1_counterexample :
    (linkSub [] [] (S "see [x](#nowhere)")).1 ≠ S "see x"
    ∧ linkSub [] [] (S "see [x](#nowhere)")
        = (S "see [xnowhere", [S "Unknown: nowhere"]) := by
  decide

/-! ## Claim C5 — resolution order and per-occurrence independence -/

/-- C5.  Resolution order of `substitute_link`: a target in the section-slug
set rewrites to that section's published filename `{slug}.html` with no
fragment (whatever the subsection registry holds); otherwise a target in the
subsection registry rewrites to the owning section's filename plus a
fragment equal to the subsection slug.  Multiple occurrences on one line are
replaced independently, each through the same `substitute_link`, with no
cross-occurrence state. -/
theorem C5_resolution (secs : List Str) (subs : List (Str × Option Str)) :
    (∀ link, link ∈ secs →
      substitute_link secs subs link = (S "](" ++ link ++ S ".html)", []))
    ∧ (∀ link owner, link ∉ secs → lookupOwner subs link = some owner →
      substitute_link secs subs link
        = (S "](" ++ ownerStr owner ++ S ".html#" ++ link ++ S ")", []))
    ∧ (∀ pre mid post id1 id2,
      (∀ c ∈ pre, c ≠ 93) → (∀ c ∈ mid, c ≠ 93) →
      id1 ≠ [] → id1.all identChar = true →
      id2 ≠ [] → id2.all identChar = true →
      linkSub secs subs
          (pre ++ (S "](#" ++ id1 ++ S ")") ++ mid ++ (S "](#" ++ id2 ++ S ")") ++ post)
        = (pre ++ (substitute_link secs subs id1).1
            ++ mid ++ (substitute_link secs subs id2).1
            ++ (linkSub secs subs post).1,
           (substitute_link secs subs id1).2
            ++ (substitute_link secs subs id2).2
            ++ (linkSub secs subs post).2)) := by
  refine ⟨fun link h => substitute_link_sec secs subs link h,
          fun link owner h1 h2 => substitute_link_sub secs subs link owner h1 h2,
          fun pre mid post id1 id2 hpre hmid h1 h2 h3 h4 => ?_⟩
  have e1 : S "](#" = [93, 40, 35] := rfl
  have e2 : S ")" = [41] := rfl
  have e : pre ++ (S "](#" ++ id1 ++ S ")") ++ mid ++ (S "](#" ++ id2 ++ S ")") ++ post
      = pre ++ (93 :: 40 :: 35 :: (id1 ++ 41 ::
          (mid ++ (93 :: 40 :: 35 :: (id2 ++ 41 :: post))))) := by
    rw [e1, e2]; simp
  rw [e, linkSub_copy_all secs subs pre _ hpre,
      linkSub_pat secs subs id1 _ h1 h2,
      linkSub_copy_all secs subs mid _ hmid,
      linkSub_pat secs subs id2 _ h3 h4]
  simp

/-- Witness for C5: two links on one line, one to a section and one to a
subsection, each replaced independently. -/
theorem C5_witness :
    linkSub [S "alpha"] [(S "detail", some (S "alpha"))]
        (S "see " ++ (S "](#" ++ S "alpha" ++ S ")") ++ S " and "
          ++ (S "](#" ++ S "detail" ++ S ")") ++ S "!")
      = (S "see " ++ (substitute_link [S "alpha"] [(S "detail", some (S "alpha"))] (S "alpha")).1
          ++ S " and "
          ++ (substitute_link [S "alpha"] [(S "detail", some (S "alpha"))] (S "detail")).1
          ++ (linkSub [S "alpha"] [(S "detail", some (S "alpha"))] (S "!")).1,
         (substitute_link [S "alpha"] [(S "detail", some (S "alpha"))] (S "alpha")).2
          ++ (substitute_link [S "alpha"] [(S "detail", some (S "alpha"))] (S "detail")).2
          ++ (linkSub [S "alpha"] [(S "detail", some (S "alpha"))] (S "!")).2) :=
  (C5_resolution [S "alpha"] [(S "detail", some (S "alpha"))]).2.2
    (S "see ") (S " and ") (S "!") (S "alpha") (S "detail")
    (by decide) (by decide) (by decide) (by decide) (by decide) (by decide)

/-! ## Claim C7 — which targets are recognized -/

/-- Identifier characters never collide with a fixed non-identifier code. -/
theorem ident_ne_of (x y : Nat) (h : identChar x = true)
    (hy : identChar y = false) : x ≠ y := by
  intro e; subst e; rw [h] at hy; cases hy

/-- `takeWhile`/`dropWhile` over an identifier run halted by a
non-identifier character. -/
theorem takeWhile_ident_stop (a : Str) (c : Nat) (tl : Str)
    (ha : a.all identChar = true) (hc : identChar c = false) :
    (a ++ c :: tl).takeWhile identChar = a
    ∧ (a ++ c :: tl).dropWhile identChar = c :: tl := by
  induction a with
  | nil => simp [List.takeWhile, List.dropWhile, hc]
  | cons x xs ih =>
    simp only [List.all_cons, Bool.and_eq_true] at ha
    have := ih ha.2
    simp [List.takeWhile, List.dropWhile, ha.1, this.1, this.2]

/-- C7 (amended).  The rewriter recognizes as an internal reference exactly
the `](#...)` occurrences whose identifier is a nonempty run over
`[-a-zA-Z0-9]` — uppercase letters included (the claim's "lowercase" is too
narrow).  An occurrence whose identifier run is interrupted by a character
outside that class (other than the closing parenthesis itself) is not
treated as an internal reference and the line is left unchanged. -/
theorem C7_recognition (secs : List Str) (subs : List (Str × Option Str)) :
    (∀ id rest, id ≠ [] → id.all identChar = true →
      matchAt (93 :: 40 :: 35 :: (id ++ 41 :: rest)) = some (id, rest))
    ∧ (∀ l id rem, matchAt l = some (id, rem) →
      id ≠ [] ∧ id.all identChar = true)
    ∧ (∀ b, 65 ≤ b → b ≤ 90 → identChar b = true)
    ∧ (∀ a c, a.all identChar = true → identChar c = false → c ≠ 41 → c ≠ 93 →
      linkSub secs subs (S "](#" ++ a ++ (c :: S ")"))
        = (S "](#" ++ a ++ (c :: S ")"), [])) := by
  refine ⟨fun id rest h1 h2 => matchAt_pat id rest h1 h2,
          fun l id rem h => ⟨(matchAt_some l id rem h).2.1, (matchAt_some l id rem h).2.2⟩,
          fun b hb1 hb2 => by simp [identChar]; omega,
          fun a c ha hc hc41 hc93 => ?_⟩
  have e1 : S "](#" = [93, 40, 35] := rfl
  have e2 : S ")" = [41] := rfl
  have e : S "](#" ++ a ++ (c :: S ")")
      = 93 :: (40 :: 35 :: (a ++ c :: [41])) := by rw [e1, e2]; simp
  have hsplit := takeWhile_ident_stop a c [41] ha hc
  have hnone : matchAt (93 :: (40 :: 35 :: (a ++ c :: [41]))) = none := by
    rw [matchAt, if_neg]
    intro hcond
    rw [hsplit.2] at hcond
    simp at hcond
    exact hc41 hcond.2
  have htail : ∀ x ∈ 40 :: 35 :: (a ++ c :: [41]), x ≠ 93 := by
    intro x hx
    simp at hx
    rcases hx with h | h | h | h | h
    · omega
    · omega
    · exact ident_ne_of x 93 (List.all_eq_true.1 ha x h) (by decide)
    · omega
    · omega
  rw [e, linkSub_copy secs subs _ _ hnone]
  have := linkSub_copy_all secs subs (40 :: 35 :: (a ++ c :: [41])) [] htail
  rw [List.append_nil] at this
  rw [this]
  simp [linkSub_nil]

/-- Witness for C7: `](#a_b...` — the underscore interrupts the identifier
run, so the occurrence is left unchanged. -/
theorem C7_witness :
    linkSub [] [] (S "](#" ++ S "a" ++ (95 :: S ")"))
      = (S "](#" ++ S "a" ++ (95 :: S ")"), []) :=
  (C7_recognition [] []).2.2.2 (S "a") 95
    (by decide) (by decide) (by decide) (by decide)

/-- Counterexample for C7 as stated: `](#Foo)` contains an uppercase letter,
yet it IS treated as an internal reference — the line is rewritten (and a
diagnostic printed), not left unchanged. -/
theorem C7_counterexample :
    (linkSub [] [] (S "[x](#Foo)")).1 ≠ S "[x](#Foo)"
    ∧ linkSub [] [] (S "[x](#Foo)") = (S "[xFoo", [S "Unknown: Foo"]) := by
  decide

/-! ## Towards idempotence of the rewrite (claim C9)

An unresolved reference is replaced by its bare identifier, which can merge
with surrounding text into a fresh `](#...)` match — that is the C9
counterexample.  A *resolved* reference is replaced by `](slug.html)` or
`](owner.html#slug)`, which can never take part in a match again: the only
`]` in the replacement opens `](x` with `x ≠ #`.  The lemmas below make
that precise. -/

theorem matchAt_short1 (a : Nat) : matchAt [a] = none := rfl

theorem matchAt_short2 (a b : Nat) : matchAt [a, b] = none := rfl

/-- No match when the second character is not `(`. -/
theorem matchAt_second (b : Nat) (u : Str) (h : b ≠ 40) :
    matchAt (93 :: b :: u) = none := by
  cases u with
  | nil => rfl
  | cons c t =>
    rw [matchAt, if_neg]
    rintro ⟨-, h40, -⟩
    exact h h40

/-- No match when the third character is not `#`. -/
theorem matchAt_third (d : Nat) (u : Str) (h : d ≠ 35) :
    matchAt (93 :: 40 :: d :: u) = none := by
  rw [matchAt, if_neg]
  rintro ⟨-, -, h35, -⟩
  exact h h35

/-- No match on `](#t` when the identifier run is empty or not closed by
`)`. -/
theorem matchAt_35_none (t : Str)
    (h : t.takeWhile identChar = [] ∨ (t.dropWhile identChar).head? ≠ some 41) :
    matchAt (93 :: 40 :: 35 :: t) = none := by
  rw [matchAt, if_neg]
  rintro ⟨-, -, -, hne, hhd⟩
  rcases h with h | h
  · exact hne h
  · exact h hhd

theorem matchAt_35_none_inv (t : Str)
    (h : matchAt (93 :: 40 :: 35 :: t) = none) :
    t.takeWhile identChar = [] ∨ (t.dropWhile identChar).head? ≠ some 41 := by
  by_contra hc
  push_neg at hc
  obtain ⟨h1, h2⟩ := hc
  rw [matchAt, if_pos ⟨rfl, rfl, rfl, h1, h2⟩] at h
  cases h

/-- The head of a nonempty `dropWhile` does not satisfy the predicate. -/
theorem dropWhile_head_false (p : Nat → Bool) (l : Str) (e : Nat) (t : Str)
    (h : l.dropWhile p = e :: t) : p e = false := by
  induction l with
  | nil => simp at h
  | cons c cs ih =>
    rw [List.dropWhile_cons] at h
    split at h
    · exact ih h
    · rename_i hpc
      obtain ⟨rfl, -⟩ := List.cons.injEq .. ▸ h
      exact Bool.not_eq_true _ ▸ hpc

/-- `dropWhile` over a list all of whose elements satisfy `p` is empty. -/
theorem dropWhile_all_nil (p : Nat → Bool) (l : Str) (h : ∀ x ∈ l, p x = true) :
    l.dropWhile p = [] := by
  induction l with
  | nil => rfl
  | cons c cs ih =>
    rw [List.dropWhile_cons, if_pos (h c (by simp))]
    exact ih (fun x hx => h x (by simp [hx]))

theorem lookupOwner_mem (subs : List (Str × Option Str)) (k : Str)
    (v : Option Str) (h : lookupOwner subs k = some v) : (k, v) ∈ subs := by
  induction subs with
  | nil => simp [lookupOwner] at h
  | cons p rest ih =>
    obtain ⟨k', v'⟩ := p
    rw [lookupOwner] at h
    split at h
    · rename_i he
      injection h with h
      subst he; subst h; simp
    · simp [ih h]

/-- The replacement for a resolved reference starts `](x` with `x` neither
`#` nor `]`, and contains no further `]`. -/
theorem substitute_link_resolved_shape (secs : List Str)
    (subs : List (Str × Option Str)) (id : Str) (hsubs : ownersOK subs)
    (hne : id ≠ []) (hall : id.all identChar = true)
    (hres : (substitute_link secs subs id).2 = []) :
    ∃ d t, (substitute_link secs subs id).1 = 93 :: 40 :: d :: t
      ∧ d ≠ 35 ∧ d ≠ 93 ∧ ∀ x ∈ t, x ≠ 93 := by
  have hidne : ∀ x ∈ id, x ≠ 93 := fun x hx =>
    ident_ne_of x 93 (List.all_eq_true.1 hall x hx) (by decide)
  by_cases hmem : id ∈ secs
  · rw [substitute_link_sec secs subs id hmem]
    cases id with
    | nil => exact absurd rfl hne
    | cons i0 id' =>
      refine ⟨i0, id' ++ S ".html)", by simp [S], ?_, ?_, ?_⟩
      · exact ident_ne_of i0 35 (by simpa using (List.all_eq_true.1 hall i0 (by simp))) (by decide)
      · exact hidne i0 (by simp)
      · intro x hx
        rcases List.mem_append.1 hx with hx | hx
        · exact hidne x (by simp [hx])
        · exact (show ∀ y ∈ S ".html)", y ≠ 93 by decide) x hx
  · cases hlo : lookupOwner subs id with
    | none =>
      rw [substitute_link_unknown secs subs id hmem hlo] at hres
      simp at hres
    | some owner =>
      rw [substitute_link_sub secs subs id owner hmem hlo]
      have howner : (ownerStr owner).all identChar = true :=
        hsubs (id, owner) (lookupOwner_mem subs id owner hlo)
      have hownne : ∀ x ∈ ownerStr owner, x ≠ 93 := fun x hx =>
        ident_ne_of x 93 (List.all_eq_true.1 howner x hx) (by decide)
      cases hos : ownerStr owner with
      | nil =>
        refine ⟨46, S "html#" ++ id ++ S ")", by simp [S, hos], by decide, by decide, ?_⟩
        intro x hx
        rcases List.mem_append.1 hx with hx | hx
        · rcases List.mem_append.1 hx with hx | hx
          · exact (show ∀ y ∈ S "html#", y ≠ 93 by decide) x hx
          · exact hidne x hx
        · exact (show ∀ y ∈ S ")", y ≠ 93 by decide) x hx
      | cons o0 o' =>
        refine ⟨o0, o' ++ S ".html#" ++ id ++ S ")", by simp [S, hos], ?_, ?_, ?_⟩
        · exact ident_ne_of o0 35 (by simpa [hos] using (List.all_eq_true.1 howner o0 (by simp [hos]))) (by decide)
        · exact hownne o0 (by simp [hos])
        · intro x hx
          rcases List.mem_append.1 hx with hx | hx
          · rcases List.mem_append.1 hx with hx | hx
            · rcases List.mem_append.1 hx with hx | hx
              · exact hownne x (by simp [hos, hx])
              · exact (show ∀ y ∈ S ".html#", y ≠ 93 by decide) x hx
            · exact hidne x hx
          · exact (show ∀ y ∈ S ")", y ≠ 93 by decide) x hx

/-- If rewriting a line printed no diagnostic, neither did the substitution
at its first match nor the rewriting of the remainder. -/
theorem linkSub_match_parts (secs : List Str) (subs : List (Str × Option Str))
    (c : Nat) (rest id rem : Str) (h : matchAt (c :: rest) = some (id, rem))
    (hd : (linkSub secs subs (c :: rest)).2 = []) :
    (substitute_link secs subs id).2 = [] ∧ (linkSub secs subs rem).2 = [] := by
  rw [linkSub_match secs subs c rest id rem h] at hd
  exact List.append_eq_nil.1 hd

/-- With no diagnostics, the output of a line whose head matches starts with
`]`. -/
theorem linkSub_out_head_93 (secs : List Str) (subs : List (Str × Option Str))
    (c : Nat) (rest id rem : Str) (hsubs : ownersOK subs)
    (h : matchAt (c :: rest) = some (id, rem))
    (hd : (linkSub secs subs (c :: rest)).2 = []) :
    ∃ u, (linkSub secs subs (c :: rest)).1 = 93 :: u := by
  obtain ⟨hres, -⟩ := linkSub_match_parts secs subs c rest id rem h hd
  obtain ⟨-, hne, hall⟩ := matchAt_some _ _ _ h
  obtain ⟨d, t, hshape, -⟩ :=
    substitute_link_resolved_shape secs subs id hsubs hne hall hres
  rw [linkSub_match secs subs c rest id rem h]
  exact ⟨40 :: d :: (t ++ (linkSub secs subs rem).1), by rw [hshape]; simp⟩

/-- A resolved replacement block passes through the scanner unchanged and
independently of what follows it. -/
theorem linkSub_shape_prefix (secs : List Str) (subs : List (Str × Option Str))
    (d : Nat) (t x : Str) (hd35 : d ≠ 35) (hd93 : d ≠ 93)
    (ht : ∀ y ∈ t, y ≠ 93) :
    linkSub secs subs (93 :: 40 :: d :: (t ++ x))
      = (93 :: 40 :: d :: (t ++ (linkSub secs subs x).1),
         (linkSub secs subs x).2) := by
  have h1 : matchAt (93 :: 40 :: d :: (t ++ x)) = none := matchAt_third d _ hd35
  rw [linkSub_copy secs subs _ _ h1]
  have h2 : ∀ y ∈ 40 :: d :: t, y ≠ 93 := by
    intro y hy
    rcases List.mem_cons.1 hy with rfl | hy
    · decide
    · rcases List.mem_cons.1 hy with rfl | hy
      · exact hd93
      · exact ht y hy
  have h3 := linkSub_copy_all secs subs (40 :: d :: t) x h2
  simp only [List.cons_append] at h3
  rw [h3]

/-- Key step: if `](#` at the head of the line does not match, it still does
not match against the diagnostic-free rewrite of the remainder. -/
theorem matchAt_out_none (secs : List Str) (subs : List (Str × Option Str))
    (hsubs : ownersOK subs) (r : Str)
    (hm : matchAt (93 :: r) = none) (hd : (linkSub secs subs r).2 = []) :
    matchAt (93 :: (linkSub secs subs r).1) = none := by
  cases r with
  | nil => rw [linkSub_nil]; exact matchAt_short1 93
  | cons b r' =>
    by_cases hb : b = 40
    · subst hb
      have hmr : matchAt (40 :: r') = none := matchAt_ne_bracket 40 r' (by decide)
      rw [linkSub_copy secs subs _ _ hmr] at hd ⊢
      dsimp only at hd ⊢
      cases r' with
      | nil => rw [linkSub_nil]; exact matchAt_short2 93 40
      | cons c t =>
        by_cases hc : c = 35
        · subst hc
          have hmr' : matchAt (35 :: t) = none := matchAt_ne_bracket 35 t (by decide)
          rw [linkSub_copy secs subs _ _ hmr'] at hd ⊢
          dsimp only at hd ⊢
          have hidall : ∀ x ∈ t.takeWhile identChar, x ≠ 93 := fun x hx =>
            ident_ne_of x 93 (List.mem_takeWhile_imp hx) (by decide)
          have hout : linkSub secs subs t
              = (t.takeWhile identChar
                  ++ (linkSub secs subs (t.dropWhile identChar)).1,
                 (linkSub secs subs (t.dropWhile identChar)).2) := by
            conv_lhs => rw [← List.takeWhile_append_dropWhile identChar t]
            exact linkSub_copy_all secs subs _ _ hidall
          rw [hout] at hd ⊢
          dsimp only at hd ⊢
          have horig := matchAt_35_none_inv t hm
          apply matchAt_35_none
          cases ht2c : t.dropWhile identChar with
          | nil =>
            rw [linkSub_nil]
            dsimp only
            rw [List.append_nil]
            right
            rw [dropWhile_all_nil identChar _
              (fun x hx => List.mem_takeWhile_imp hx)]
            simp
          | cons e t3 =>
            have he : identChar e = false := dropWhile_head_false identChar t e t3 ht2c
            rw [ht2c] at hd
            cases hm2 : matchAt (e :: t3) with
            | some p =>
              obtain ⟨id2, rem2⟩ := p
              obtain ⟨u, hu⟩ :=
                linkSub_out_head_93 secs subs e t3 id2 rem2 hsubs hm2 hd
              rw [hu]
              right
              have hsplit2 := takeWhile_ident_stop (t.takeWhile identChar) 93 u
                (List.all_eq_true.2 fun x hx => List.mem_takeWhile_imp hx) (by decide)
              rw [hsplit2.2]
              simp
            | none =>
              rw [linkSub_copy secs subs _ _ hm2]
              dsimp only
              have hsplit2 := takeWhile_ident_stop (t.takeWhile identChar) e
                ((linkSub secs subs t3).1)
                (List.all_eq_true.2 fun x hx => List.mem_takeWhile_imp hx) he
              rcases horig with h0 | h0
              · left
                rw [h0]
                simp [List.takeWhile_cons, he]
              · right
                rw [hsplit2.2]
                rw [ht2c] at h0
                simp only [List.head?_cons] at h0 ⊢
                exact h0
        · cases hm2 : matchAt (c :: t) with
          | some p =>
            obtain ⟨id2, rem2⟩ := p
            obtain ⟨u, hu⟩ :=
              linkSub_out_head_93 secs subs c t id2 rem2 hsubs hm2 hd
            rw [hu]
            exact matchAt_third 93 u (by decide)
          | none =>
            rw [linkSub_copy secs subs _ _ hm2]
            dsimp only
            exact matchAt_third c _ hc
    · cases hmr : matchAt (b :: r') with
      | some p =>
        obtain ⟨id2, rem2⟩ := p
        obtain ⟨u, hu⟩ :=
          linkSub_out_head_93 secs subs b r' id2 rem2 hsubs hmr hd
        rw [hu]
        exact matchAt_second 93 u (by decide)
      | none =>
        rw [linkSub_copy secs subs _ _ hmr]
        dsimp only
        exact matchAt_second b _ hb

/-- Diagnostic-free rewriting is idempotent (fuelled induction). -/
theorem linkSub_idem (secs : List Str) (subs : List (Str × Option Str))
    (hsubs : ownersOK subs) :
    ∀ n l, l.length ≤ n → (linkSub secs subs l).2 = [] →
      linkSub secs subs ((linkSub secs subs l).1) = ((linkSub secs subs l).1, []) := by
  intro n
  induction n using Nat.strong_induction_on with
  | _ n ih =>
    intro l hl hd
    cases l with
    | nil => rw [linkSub_nil]; exact linkSub_nil secs subs
    | cons c rest =>
      cases hm : matchAt (c :: rest) with
      | some p =>
        obtain ⟨id, rem⟩ := p
        obtain ⟨-, hne, hall⟩ := matchAt_some _ _ _ hm
        obtain ⟨hres, hdrem⟩ := linkSub_match_parts secs subs c rest id rem hm hd
        obtain ⟨d, t, hrepl, hd35, hd93, ht93⟩ :=
          substitute_link_resolved_shape secs subs id hsubs hne hall hres
        rw [linkSub_match secs subs c rest id rem hm]
        dsimp only
        rw [hrepl]
        have e : (93 :: 40 :: d :: t) ++ (linkSub secs subs rem).1
            = 93 :: 40 :: d :: (t ++ (linkSub secs subs rem).1) := by simp
        rw [e, linkSub_shape_prefix secs subs d t _ hd35 hd93 ht93]
        have hlen : rem.length + 5 ≤ (c :: rest).length := matchAt_some_length _ _ _ hm
        have hcr : (c :: rest).length ≤ n := hl
        rw [ih rem.length (by simp at hcr; omega) rem le_rfl hdrem]
      | none =>
        rw [linkSub_copy secs subs _ _ hm] at hd ⊢
        dsimp only at hd ⊢
        have hnone : matchAt (c :: (linkSub secs subs rest).1) = none := by
          by_cases hc : c = 93
          · subst hc; exact matchAt_out_none secs subs hsubs rest hm hd
          · exact matchAt_ne_bracket _ _ hc
        rw [linkSub_copy secs subs _ _ hnone]
        have hcr : (c :: rest).length ≤ n := hl
        rw [ih rest.length (by simp at hcr; omega) rest le_rfl hd]

/-! ## Claim C9 — determinism and idempotence of link rewriting -/

/-- C9 (amended).  Link rewriting is a pure function of the line and the two
registries, so rewriting the same line twice with the same registries
trivially yields the same output; and a second pass is a no-op on any line
whose first pass resolves every recognized reference (prints no diagnostic),
given that the registries' owner entries are identifier strings, as every
registry built by the program is.  (When a reference is unresolved its bare
identifier replacement can merge with adjacent text into a fresh `](#...)`
match, so the unconditional claim fails — see the counterexample.) -/
theorem C9_deterministic_idempotent (secs : List Str)
    (subs : List (Str × Option Str)) (l : Str) (hsubs : ownersOK subs)
    (hd : (linkSub secs subs l).2 = []) :
    linkSub secs subs l = linkSub secs subs l
    ∧ linkSub secs subs ((linkSub secs subs l).1)
        = ((linkSub secs subs l).1, []) :=
  ⟨rfl, linkSub_idem secs subs hsubs l.length l le_rfl hd⟩

/-- Witness for C9: a line with one section link and one subsection link,
both resolved; the rewritten line rewrites to itself with no diagnostic. -/
theorem C9_witness :
    linkSub [S "alpha"] [(S "detail", some (S "alpha"))]
        ((linkSub [S "alpha"] [(S "detail", some (S "alpha"))]
            (S "see [x](#alpha) and [y](#detail).")).1)
      = ((linkSub [S "alpha"] [(S "detail", some (S "alpha"))]
            (S "see [x](#alpha) and [y](#detail).")).1, []) :=
  (C9_deterministic_idempotent [S "alpha"] [(S "detail", some (S "alpha"))]
    (S "see [x](#alpha) and [y](#detail).")
    (by unfold ownersOK; decide) (by decide)).2

/-- Counterexample for C9 as stated: on `](#a](#b))` with empty registries
the first pass yields `](#ab)` (the unresolved `b` merges with the text
around it), which still matches, so the second pass changes the line
again — rewriting is NOT unconditionally idempotent. -/
theorem C9_counterexample :
    (linkSub [] [] ((linkSub [] [] (S "](#a](#b))")).1)).1
      ≠ (linkSub [] [] (S "](#a](#b))")).1
    ∧ (linkSub [] [] (S "](#a](#b))")).1 = S "](#ab)"
    ∧ (linkSub [] [] (S "](#ab)")).1 = S "ab" := by
  decide

/-! ## Claim C2 — subsection headings -/

/-- The subsection branch of the segmenter (lines 50-53), for a heading
line of `k ≥ 1` hashes (`k ≠ 2`), a space, a hash-free title and a
newline. -/
theorem step_subsection (st : SegState) (k : Nat) (t a : Str)
    (hdone : st.done = false) (hseen : st.seen_preamble = true)
    (hk1 : 1 ≤ k) (hk2 : k ≠ 2) (ht : ∀ x ∈ t, x ≠ 35)
    (hcur : st.current_section_slug = some a) :
    step st (List.replicate k 35 ++ S " " ++ t ++ S "\n")
      = { appendCur st (List.replicate (k - 1) 35 ++ S " " ++ t ++ S "\n") with
          subsection_slugs := (slugify t, some a) :: st.subsection_slugs } := by
  have hline : List.replicate k 35 ++ S " " ++ t ++ S "\n"
      = 35 :: (List.replicate (k - 1) 35 ++ S " " ++ t ++ S "\n") := by
    cases k with
    | zero => omega
    | succ m => simp [List.replicate_succ]
  have hne_delim : List.replicate k 35 ++ S " " ++ t ++ S "\n" ≠ S "---\n" := by
    rw [hline]
    have e : S "---\n" = 45 :: [45, 45, 10] := rfl
    rw [e]
    intro h
    simp at h
  have hne_blank : List.replicate k 35 ++ S " " ++ t ++ S "\n" ≠ S "\n" := by
    rw [hline]
    have e : S "\n" = 10 :: [] := rfl
    rw [e]
    intro h
    simp at h
  have hpre2 : (S "## ").isPrefixOf (List.replicate k 35 ++ S " " ++ t ++ S "\n")
      = false := by
    have e : S "## " = [35, 35, 32] := rfl
    rw [hline, e]
    cases hk : k - 1 with
    | zero => simp [List.isPrefixOf, S]
    | succ m =>
      have hm : m ≠ 0 := by omega
      cases m with
      | zero => exact absurd rfl hm
      | succ m2 => simp [List.replicate_succ, List.isPrefixOf]
  have hpre1 : (S "#").isPrefixOf (List.replicate k 35 ++ S " " ++ t ++ S "\n")
      = true := by
    have e : S "#" = [35] := rfl
    rw [hline, e]
    simp [List.isPrefixOf]
  have hfilter : ((List.replicate k 35 ++ S " " ++ t ++ S "\n").filter (· ≠ 35))
      = S " " ++ t ++ S "\n" := by
    have hrep : ∀ m : Nat, (List.replicate m 35).filter (· ≠ 35) = [] := by
      intro m
      induction m with
      | zero => rfl
      | succ m2 ih => simp [List.replicate_succ, ih]
    have hkeep : t.filter (· ≠ 35) = t :=
      List.filter_eq_self.2 (fun x hx => decide_eq_true (ht x hx))
    simp [List.filter_append, hrep, hkeep, S]
    exact ht
  have htitle : (((List.replicate k 35 ++ S " " ++ t ++ S "\n").filter (· ≠ 35)).drop 1).dropLast
      = t := by
    rw [hfilter]
    have e1 : S " " = [32] := rfl
    have e2 : S "\n" = [10] := rfl
    rw [e1, e2]
    simp
  rw [step, if_neg (by rw [hdone]; simp), if_neg (by rw [hseen]; simp),
      if_neg hne_delim, if_neg (by rw [hpre2]; simp),
      if_neg (by rw [Bool.and_eq_true]; rintro ⟨-, hbl⟩; exact hne_blank (of_decide_eq_true hbl)),
      if_pos (by rw [hpre1])]
  rw [htitle, hcur]
  have hdrop : (List.replicate k 35 ++ S " " ++ t ++ S "\n").drop 1
      = List.replicate (k - 1) 35 ++ S " " ++ t ++ S "\n" := by
    rw [hline]; simp
  rw [hdrop]
  rfl

/-- C2.  After the preamble, a heading line of `k ≥ 1` hash characters
(`k ≠ 2`, so it is not a level-2 heading) followed by a space, a hash-free
title `t` and a newline is handled by the subsection branch (lines 50-53):
exactly one leading hash is stripped and the de-leveled line is appended to
the current section's buffer, while `slugify t` is registered in the
subsection registry as belonging to the current section's slug. -/
theorem C2_subsection_step (st : SegState) (k : Nat) (t a : Str)
    (hdone : st.done = false) (hseen : st.seen_preamble = true)
    (hk1 : 1 ≤ k) (hk2 : k ≠ 2) (ht : ∀ x ∈ t, x ≠ 35)
    (hcur : st.current_section_slug = some a) :
    step st (List.replicate k 35 ++ S " " ++ t ++ S "\n")
      = { appendCur st (List.replicate (k - 1) 35 ++ S " " ++ t ++ S "\n") with
          subsection_slugs := (slugify t, some a) :: st.subsection_slugs } :=
  step_subsection st k t a hdone hseen hk1 hk2 ht hcur

/-- Witness for C2: the spec's own example — `### Detail` inside section
"Alpha" registers `detail -> alpha` and the buffer receives `## Detail`. -/
theorem C2_witness :
    step (segmentDoc [S "---\n", S "## Alpha\n"])
        (List.replicate 3 35 ++ S " " ++ S "Detail" ++ S "\n")
      = { appendCur (segmentDoc [S "---\n", S "## Alpha\n"])
            (List.replicate 2 35 ++ S " " ++ S "Detail" ++ S "\n") with
          subsection_slugs := (slugify (S "Detail"), some (S "alpha"))
            :: (segmentDoc [S "---\n", S "## Alpha\n"]).subsection_slugs } :=
  C2_subsection_step (segmentDoc [S "---\n", S "## Alpha\n"]) 3 (S "Detail") (S "alpha")
    (by decide) (by decide) (by decide) (by decide) (by decide) (by decide)

/-! ## Segmenter phase lemmas -/

theorem modifyLast_length {α : Type} (f : α → α) (l : List α) :
    (modifyLast f l).length = l.length := by
  induction l with
  | nil => rfl
  | cons x xs ih =>
    cases xs with
    | nil => rfl
    | cons y ys => simpa [modifyLast] using ih

/-- After the `break` (line 38) no further line changes the state. -/
theorem step_of_done (st : SegState) (line : Str) (h : st.done = true) :
    step st line = st := by
  rw [step, if_pos h]

theorem foldl_done (st : SegState) (ls : List Str) (h : st.done = true) :
    ls.foldl step st = st := by
  induction ls with
  | nil => rfl
  | cons l ls ih => rw [List.foldl_cons, step_of_done st l h]; exact ih

/-- Before the preamble delimiter, every other line is discarded
(lines 32-36). -/
theorem step_unseen_skip (st : SegState) (line : Str) (h1 : st.done = false)
    (h2 : st.seen_preamble = false) (h3 : line ≠ S "---\n") :
    step st line = st := by
  rw [step, if_neg (by rw [h1]; simp), if_pos (by rw [h2]; simp), if_neg h3]

theorem foldl_unseen_skip (st : SegState) (ls : List Str) (h1 : st.done = false)
    (h2 : st.seen_preamble = false) (h3 : S "---\n" ∉ ls) :
    ls.foldl step st = st := by
  induction ls with
  | nil => rfl
  | cons l ls ih =>
    rw [List.foldl_cons, step_unseen_skip st l h1 h2 (fun e => h3 (by simp [e]))]
    exact ih (fun hm => h3 (by simp [hm]))

/-- The preamble delimiter opens the synthetic Introduction section
(lines 33-36). -/
theorem step_unseen_delim (st : SegState) (h1 : st.done = false)
    (h2 : st.seen_preamble = false) :
    step st (S "---\n")
      = { st with
          seen_preamble := true
          sections := st.sections ++ [(S "Introduction", S "introduction", [])] } := by
  rw [step, if_neg (by rw [h1]; simp), if_pos (by rw [h2]; simp), if_pos rfl]

/-- The closing delimiter sets the `break` flag (lines 37-38). -/
theorem step_seen_delim (st : SegState) (h1 : st.done = false)
    (h2 : st.seen_preamble = true) :
    step st (S "---\n") = { st with done := true } := by
  rw [step, if_neg (by rw [h1]; simp), if_neg (by rw [h2]; simp), if_pos rfl]

/-- Body phase: between the delimiters the segmenter stays live and the
section count grows exactly at level-2 headings not titled "Contents". -/
theorem foldl_body (ls : List Str) :
    ∀ st : SegState, st.done = false → st.seen_preamble = true →
    S "---\n" ∉ ls →
    (ls.foldl step st).done = false
    ∧ (ls.foldl step st).seen_preamble = true
    ∧ (ls.foldl step st).sections.length
        = st.sections.length
          + ls.countP (fun l =>
              (S "## ").isPrefixOf l && !((l.drop 3).dropLast == S "Contents")) := by
  induction ls with
  | nil => intro st h1 h2 _; simp [h1, h2]
  | cons l ls ih =>
    intro st h1 h2 hmem
    have hl : l ≠ S "---\n" := fun e => hmem (by simp [e])
    have hstep : (step st l).done = false ∧ (step st l).seen_preamble = true
        ∧ (step st l).sections.length
          = st.sections.length
            + (if ((S "## ").isPrefixOf l
                  && !((l.drop 3).dropLast == S "Contents")) = true then 1 else 0) := by
      rw [step, if_neg (by rw [h1]; simp), if_neg (by rw [h2]; simp), if_neg hl]
      by_cases hp : (S "## ").isPrefixOf l = true
      · rw [if_pos hp]
        by_cases hcont : (l.drop 3).dropLast = S "Contents"
        · rw [if_pos hcont]
          refine ⟨h1, h2, ?_⟩
          simp [appendCur, modifyLast_length, hp, hcont]
        · rw [if_neg hcont]
          refine ⟨h1, h2, ?_⟩
          simp [hp, hcont]
      · have hp' : (S "## ").isPrefixOf l = false := by
          cases hb : (S "## ").isPrefixOf l
          · rfl
          · exact absurd hb hp
        rw [if_neg hp]
        have hq : ((S "## ").isPrefixOf l
            && !((l.drop 3).dropLast == S "Contents")) = false := by
          rw [hp']; rfl
        split
        · exact ⟨h1, h2, by simp [hq]⟩
        · split
          · exact ⟨h1, h2, by simp [appendCur, modifyLast_length, hq]⟩
          · exact ⟨h1, h2, by simp [appendCur, modifyLast_length, hq]⟩
    obtain ⟨hd1, hd2, hd3⟩ := hstep
    rw [List.foldl_cons]
    obtain ⟨r1, r2, r3⟩ := ih (step st l) hd1 hd2 (fun hm => hmem (by simp [hm]))
    refine ⟨r1, r2, ?_⟩
    rw [r3, hd3, List.countP_cons]
    by_cases hq : ((S "## ").isPrefixOf l
        && !((l.drop 3).dropLast == S "Contents")) = true
    · simp [hq]; omega
    · simp [hq]

/-- Skipping the preamble and consuming the opening delimiter. -/
theorem segment_open (pre body : List Str) (hpre : S "---\n" ∉ pre) :
    segmentDoc (pre ++ [S "---\n"] ++ body)
      = body.foldl step
          { seen_preamble := true, done := false, section_slugs := [],
            current_section_slug := none,
            sections := [(S "Introduction", S "introduction", [])],
            subsection_slugs := [] } := by
  unfold segmentDoc
  have e : pre ++ [S "---\n"] ++ body = pre ++ (S "---\n" :: body) := by simp
  rw [e, List.foldl_append, foldl_unseen_skip initState pre rfl rfl hpre,
      List.foldl_cons, step_unseen_delim initState rfl rfl]
  simp [initState]

/-! ## Claim C4 — section count -/

/-- C4.  For a document with well-formed preamble and closing delimiters,
the number of emitted sections is one (the synthetic Introduction) plus the
number of level-2 heading lines in the body, except that headings titled
exactly "Contents" contribute zero: after the preamble, a level-2 heading
line whose title is exactly "Contents" does not start a new section — the
whole step is `current_section.append(line)` (lines 41-43), so the line is
appended verbatim to the current section's line buffer and the section
list, the slug registries and the current slug are untouched. -/
theorem C4_section_count (pre body rest : List Str)
    (hpre : S "---\n" ∉ pre) (hbody : S "---\n" ∉ body) :
    ((segmentDoc (pre ++ [S "---\n"] ++ body ++ [S "---\n"] ++ rest)).sections.length
      = 1 + body.countP (fun l =>
          (S "## ").isPrefixOf l && !((l.drop 3).dropLast == S "Contents")))
    ∧ (∀ st : SegState, ∀ line : Str, st.done = false → st.seen_preamble = true →
        (S "## ").isPrefixOf line = true → (line.drop 3).dropLast = S "Contents" →
        step st line = appendCur st line
        ∧ (step st line).sections.length = st.sections.length
        ∧ (step st line).section_slugs = st.section_slugs
        ∧ (step st line).current_section_slug = st.current_section_slug
        ∧ (step st line).subsection_slugs = st.subsection_slugs) := by
  constructor
  · have e : pre ++ [S "---\n"] ++ body ++ [S "---\n"] ++ rest
        = pre ++ [S "---\n"] ++ (body ++ (S "---\n" :: rest)) := by simp
    rw [e, segment_open pre _ hpre, List.foldl_append]
    obtain ⟨b1, b2, b3⟩ := foldl_body body
      { seen_preamble := true, done := false, section_slugs := [],
        current_section_slug := none,
        sections := [(S "Introduction", S "introduction", [])],
        subsection_slugs := [] } rfl rfl hbody
    rw [List.foldl_cons, step_seen_delim _ b1 b2, foldl_done _ rest rfl]
    simpa using b3
  · intro st line h1 h2 hp hcont
    have hstep : step st line = appendCur st line := by
      obtain ⟨tl, htl⟩ := List.isPrefixOf_iff_prefix.1 hp
      have hne : line ≠ S "---\n" := by
        rw [← htl]
        have e1 : S "## " = 35 :: [35, 32] := rfl
        have e2 : S "---\n" = 45 :: [45, 45, 10] := rfl
        rw [e1, e2]
        intro h
        simp at h
      rw [step, if_neg (by rw [h1]; simp), if_neg (by rw [h2]; simp),
          if_neg hne, if_pos (by rw [hp]), if_pos hcont]
    refine ⟨hstep, ?_, ?_, ?_, ?_⟩ <;>
      rw [hstep] <;> simp [appendCur, modifyLast_length]

/-- Witness for C4: a body whose "Contents" heading contributes zero and
whose "Alpha" heading contributes one; and the `## Contents` line inside a
concrete state is appended verbatim to the current section's buffer. -/
theorem C4_witness :
    ((segmentDoc ([S "x\n"] ++ [S "---\n"]
        ++ [S "## Contents\n", S "hi\n", S "## Alpha\n"] ++ [S "---\n"]
        ++ [S "tail\n"])).sections.length
      = 1 + [S "## Contents\n", S "hi\n", S "## Alpha\n"].countP (fun l =>
          (S "## ").isPrefixOf l && !((l.drop 3).dropLast == S "Contents")))
    ∧ step (segmentDoc [S "---\n", S "## Alpha\n"]) (S "## Contents\n")
        = appendCur (segmentDoc [S "---\n", S "## Alpha\n"]) (S "## Contents\n") :=
  ⟨(C4_section_count [S "x\n"] [S "## Contents\n", S "hi\n", S "## Alpha\n"]
      [S "tail\n"] (by decide) (by decide)).1,
   ((C4_section_count [S "x\n"] [S "## Contents\n", S "hi\n", S "## Alpha\n"]
      [S "tail\n"] (by decide) (by decide)).2
      (segmentDoc [S "---\n", S "## Alpha\n"]) (S "## Contents\n")
      (by decide) (by decide) (by decide) (by decide)).1⟩

/-! ## Claim C8 — terminal closing delimiter; missing delimiter tolerated -/

/-- C8.  A closing `---` line after the preamble transitions the segmenter
to its terminal state (the `break` flag is set) and halts all further
processing: the final state is independent of every later line, so no line
after it is ever read or appended to any section.  And a document with no
closing delimiter is processed to end-of-input with no error — it never
reaches the terminal state and produces exactly the sections and registries
of the well-terminated document. -/
theorem C8_closing_terminal (pre body rest : List Str)
    (hpre : S "---\n" ∉ pre) (hbody : S "---\n" ∉ body) :
    segmentDoc (pre ++ [S "---\n"] ++ body ++ [S "---\n"] ++ rest)
      = segmentDoc (pre ++ [S "---\n"] ++ body ++ [S "---\n"])
    ∧ (segmentDoc (pre ++ [S "---\n"] ++ body ++ [S "---\n"])).done = true
    ∧ (segmentDoc (pre ++ [S "---\n"] ++ body)).done = false
    ∧ (segmentDoc (pre ++ [S "---\n"] ++ body ++ [S "---\n"])).sections
        = (segmentDoc (pre ++ [S "---\n"] ++ body)).sections
    ∧ (segmentDoc (pre ++ [S "---\n"] ++ body ++ [S "---\n"])).section_slugs
        = (segmentDoc (pre ++ [S "---\n"] ++ body)).section_slugs
    ∧ (segmentDoc (pre ++ [S "---\n"] ++ body ++ [S "---\n"])).subsection_slugs
        = (segmentDoc (pre ++ [S "---\n"] ++ body)).subsection_slugs := by
  obtain ⟨b1, b2, -⟩ := foldl_body body
    { seen_preamble := true, done := false, section_slugs := [],
      current_section_slug := none,
      sections := [(S "Introduction", S "introduction", [])],
      subsection_slugs := [] } rfl rfl hbody
  have hopen := segment_open pre body hpre
  have hclosed : segmentDoc (pre ++ [S "---\n"] ++ body ++ [S "---\n"])
      = { segmentDoc (pre ++ [S "---\n"] ++ body) with done := true } := by
    have e : pre ++ [S "---\n"] ++ body ++ [S "---\n"]
        = pre ++ [S "---\n"] ++ (body ++ [S "---\n"]) := by simp
    rw [e, segment_open pre _ hpre, List.foldl_append, List.foldl_cons,
        List.foldl_nil, step_seen_delim _ b1 b2, hopen]
  have hfull : segmentDoc (pre ++ [S "---\n"] ++ body ++ [S "---\n"] ++ rest)
      = { segmentDoc (pre ++ [S "---\n"] ++ body) with done := true } := by
    have e : pre ++ [S "---\n"] ++ body ++ [S "---\n"] ++ rest
        = pre ++ [S "---\n"] ++ (body ++ (S "---\n" :: rest)) := by simp
    rw [e, segment_open pre _ hpre, List.foldl_append, List.foldl_cons,
        step_seen_delim _ b1 b2, foldl_done _ rest rfl, hopen]
  refine ⟨hfull.trans hclosed.symm, by rw [hclosed], ?_, by rw [hclosed],
    by rw [hclosed], by rw [hclosed]⟩
  rw [hopen]
  exact b1

/-- Witness for C8: the lines after the closing delimiter (here `## Ghost`)
are never read, the closed document reaches the terminal state while the
unclosed one does not, and dropping the closing delimiter leaves the same
sections and registries. -/
theorem C8_witness :
    segmentDoc ([S "p\n"] ++ [S "---\n"] ++ [S "## Alpha\n", S "body\n"]
        ++ [S "---\n"] ++ [S "## Ghost\n"])
      = segmentDoc ([S "p\n"] ++ [S "---\n"] ++ [S "## Alpha\n", S "body\n"]
          ++ [S "---\n"])
    ∧ (segmentDoc ([S "p\n"] ++ [S "---\n"] ++ [S "## Alpha\n", S "body\n"]
          ++ [S "---\n"])).done = true
    ∧ (segmentDoc ([S "p\n"] ++ [S "---\n"]
          ++ [S "## Alpha\n", S "body\n"])).done = false
    ∧ (segmentDoc ([S "p\n"] ++ [S "---\n"] ++ [S "## Alpha\n", S "body\n"]
          ++ [S "---\n"])).sections
        = (segmentDoc ([S "p\n"] ++ [S "---\n"]
            ++ [S "## Alpha\n", S "body\n"])).sections
    ∧ (segmentDoc ([S "p\n"] ++ [S "---\n"] ++ [S "## Alpha\n", S "body\n"]
          ++ [S "---\n"])).section_slugs
        = (segmentDoc ([S "p\n"] ++ [S "---\n"]
            ++ [S "## Alpha\n", S "body\n"])).section_slugs
    ∧ (segmentDoc ([S "p\n"] ++ [S "---\n"] ++ [S "## Alpha\n", S "body\n"]
          ++ [S "---\n"])).subsection_slugs
        = (segmentDoc ([S "p\n"] ++ [S "---\n"]
            ++ [S "## Alpha\n", S "body\n"])).subsection_slugs :=
  C8_closing_terminal [S "p\n"] [S "## Alpha\n", S "body\n"] [S "## Ghost\n"]
    (by decide) (by decide)

/-! ## Claim C3 — slugification -/

/-- A kept, space-replaced, lowercased character is a lowercase letter, a
digit, or a hyphen. -/
theorem slug_char_good (c : Nat) (h : keepChar c = true) :
    ((97 ≤ pyLower (if c = 32 then 45 else c)
        && pyLower (if c = 32 then 45 else c) ≤ 122)
      || (48 ≤ pyLower (if c = 32 then 45 else c)
        && pyLower (if c = 32 then 45 else c) ≤ 57)
      || pyLower (if c = 32 then 45 else c) == 45) = true := by
  rw [keepChar, pyIsAlnum] at h
  simp only [Bool.or_eq_true, Bool.and_eq_true, decide_eq_true_eq, beq_iff_eq] at h
  by_cases h32 : c = 32
  · subst h32; decide
  · rw [if_neg h32]
    simp only [pyLower]
    split
    · rename_i hcond
      simp only [Bool.and_eq_true, decide_eq_true_eq] at hcond
      simp only [Bool.or_eq_true, Bool.and_eq_true, decide_eq_true_eq, beq_iff_eq]
      omega
    · rename_i hcond
      simp only [Bool.and_eq_true, decide_eq_true_eq] at hcond
      simp only [Bool.or_eq_true, Bool.and_eq_true, decide_eq_true_eq, beq_iff_eq]
      omega

/-- C3.  `slugify` retains only alphanumerics, spaces and hyphens, replaces
spaces by hyphens and lowercases the result; it is deterministic
(`slugify t = slugify t` always) and its output contains only characters in
`[a-z0-9-]`. -/
theorem C3_slugify (t : Str) :
    slugify t = slugify t
    ∧ (slugify t).all (fun b =>
        (97 ≤ b && b ≤ 122) || (48 ≤ b && b ≤ 57) || b == 45) = true := by
  refine ⟨rfl, ?_⟩
  rw [List.all_eq_true]
  intro b hb
  rw [slugify] at hb
  simp only [List.mem_map] at hb
  obtain ⟨b1, ⟨c, hc, hfc⟩, hpb⟩ := hb
  subst hpb
  subst hfc
  exact slug_char_good c (List.mem_filter.1 hc).2

/-! ## Claim C6 — navigation footer -/

/-- C6.  For the section at 0-indexed position `i` among `N` sections: a
"Previous" link to section `i-1` is included iff `i > 0`, a "Next" link to
section `i+1` iff `i < N-1`, and for `N = 1` the navigation line is empty;
the links are joined with " | " and appended to the section's rendered
buffer as its last line, preceded by a horizontal rule and blank lines. -/
theorem C6_navigation (sections : List (Str × Str × List Str)) (i : Nat)
    (secs : List Str) (subs : List (Str × Option Str)) :
    (sections.length = 1 → navFooter sections 0 = S "\n\n---\n\n" ++ S "\n")
    ∧ (0 < i → i + 1 < sections.length →
        navFooter sections i
          = S "\n\n---\n\n" ++ (prevLink (sections.getD (i - 1) ([], [], []))
              ++ S " | " ++ nextLink (sections.getD (i + 1) ([], [], []))) ++ S "\n")
    ∧ (1 < sections.length →
        navFooter sections 0
          = S "\n\n---\n\n" ++ nextLink (sections.getD 1 ([], [], [])) ++ S "\n")
    ∧ (0 < i → i = sections.length - 1 →
        navFooter sections i
          = S "\n\n---\n\n" ++ prevLink (sections.getD (i - 1) ([], [], [])) ++ S "\n")
    ∧ (∀ j, (renderSection secs subs sections j).getLast?
        = some (navFooter sections j)) := by
  refine ⟨?_, ?_, ?_, ?_, ?_⟩
  · intro h
    rw [navFooter, navigation, if_neg (by omega), if_neg (by omega)]
    simp [joinSep]
  · intro h1 h2
    rw [navFooter, navigation, if_pos h1, if_pos (by omega)]
    simp [joinSep]
  · intro h
    rw [navFooter, navigation, if_neg (by omega), if_pos (by omega)]
    simp [joinSep]
  · intro h1 h2
    rw [navFooter, navigation, if_pos h1, if_neg (by omega)]
    simp [joinSep]
  · intro j
    rw [renderSection]
    simp

/-- Witness for C6: in a three-section document the middle section gets both
links joined by " | ". -/
theorem C6_witness :
    navFooter [(S "Introduction", S "introduction", []),
               (S "Alpha", S "alpha", []), (S "Beta", S "beta", [])] 1
      = S "\n\n---\n\n"
        ++ (prevLink ([(S "Introduction", S "introduction", []),
              (S "Alpha", S "alpha", []),
              (S "Beta", S "beta", [])].getD 0 ([], [], []))
          ++ S " | "
          ++ nextLink ([(S "Introduction", S "introduction", []),
              (S "Alpha", S "alpha", []),
              (S "Beta", S "beta", [])].getD 2 ([], [], [])))
        ++ S "\n" :=
  (C6_navigation [(S "Introduction", S "introduction", []),
      (S "Alpha", S "alpha", []), (S "Beta", S "beta", [])] 1 [] []).2.1
    (by decide) (by decide)

/-! ## Claim C10 — duplicate subsection slugs -/

/-- The new-section branch of the segmenter (lines 39-47) for a heading
`## ttl` whose title is not "Contents". -/
theorem step_h2 (st : SegState) (ttl : Str) (hdone : st.done = false)
    (hseen : st.seen_preamble = true) (hcont : ttl ≠ S "Contents") :
    step st (S "## " ++ ttl ++ S "\n")
      = { st with
          current_section_slug := some (slugify ttl)
          section_slugs := slugify ttl :: st.section_slugs
          sections := st.sections ++ [(ttl, slugify ttl, [])] } := by
  have hne_delim : S "## " ++ ttl ++ S "\n" ≠ S "---\n" := by
    have e1 : S "## " = 35 :: [35, 32] := rfl
    have e2 : S "---\n" = 45 :: [45, 45, 10] := rfl
    rw [e1, e2]
    intro h
    simp at h
  have hpre : (S "## ").isPrefixOf (S "## " ++ ttl ++ S "\n") = true := by
    rw [List.isPrefixOf_iff_prefix]
    exact ⟨ttl ++ S "\n", by simp⟩
  have htitle : ((S "## " ++ ttl ++ S "\n").drop 3).dropLast = ttl := by
    have e : S "## " ++ ttl ++ S "\n" = [35, 35, 32] ++ (ttl ++ [10]) := by
      have e1 : S "## " = [35, 35, 32] := rfl
      have e2 : S "\n" = [10] := rfl
      rw [e1, e2]; simp
    rw [e]
    have e3 : (3 : Nat) = [35, 35, 32].length := rfl
    rw [e3, List.drop_left]
    simp
  rw [step, if_neg (by rw [hdone]; simp), if_neg (by rw [hseen]; simp),
      if_neg hne_delim, if_pos (by rw [hpre]), htitle, if_neg hcont]

/-- C10.  If two subsection headings slugify to the same identifier, the
subsection registry maps that slug to the owner of the later occurrence
(the later registration shadows the earlier one), with no error and no
diagnostic, and a link to that slug resolves to the last owner's file. -/
theorem C10_duplicate_subsection (A B T1 T2 : Str)
    (hA : A ≠ S "Contents") (hB : B ≠ S "Contents")
    (hT1 : ∀ x ∈ T1, x ≠ 35) (hT2 : ∀ x ∈ T2, x ≠ 35)
    (hcoll : slugify T2 = slugify T1)
    (hsecA : slugify T1 ≠ slugify A) (hsecB : slugify T1 ≠ slugify B) :
    (segmentDoc [S "---\n", S "## " ++ A ++ S "\n", S "### " ++ T1 ++ S "\n",
        S "## " ++ B ++ S "\n", S "### " ++ T2 ++ S "\n"]).subsection_slugs
      = [(slugify T1, some (slugify B)), (slugify T1, some (slugify A))]
    ∧ lookupOwner (segmentDoc [S "---\n", S "## " ++ A ++ S "\n",
        S "### " ++ T1 ++ S "\n", S "## " ++ B ++ S "\n",
        S "### " ++ T2 ++ S "\n"]).subsection_slugs (slugify T1)
      = some (some (slugify B))
    ∧ substitute_link
        (segmentDoc [S "---\n", S "## " ++ A ++ S "\n", S "### " ++ T1 ++ S "\n",
          S "## " ++ B ++ S "\n", S "### " ++ T2 ++ S "\n"]).section_slugs
        (segmentDoc [S "---\n", S "## " ++ A ++ S "\n", S "### " ++ T1 ++ S "\n",
          S "## " ++ B ++ S "\n", S "### " ++ T2 ++ S "\n"]).subsection_slugs
        (slugify T1)
      = (S "](" ++ slugify B ++ S ".html#" ++ slugify T1 ++ S ")", []) := by
  have hsub1 : S "### " ++ T1 ++ S "\n" = List.replicate 3 35 ++ S " " ++ T1 ++ S "\n" := by
    have e : S "### " = List.replicate 3 35 ++ S " " := rfl
    rw [e]
  have hsub2 : S "### " ++ T2 ++ S "\n" = List.replicate 3 35 ++ S " " ++ T2 ++ S "\n" := by
    have e : S "### " = List.replicate 3 35 ++ S " " := rfl
    rw [e]
  have hfields : (segmentDoc [S "---\n", S "## " ++ A ++ S "\n",
        S "### " ++ T1 ++ S "\n", S "## " ++ B ++ S "\n",
        S "### " ++ T2 ++ S "\n"]).subsection_slugs
        = [(slugify T1, some (slugify B)), (slugify T1, some (slugify A))]
      ∧ (segmentDoc [S "---\n", S "## " ++ A ++ S "\n",
          S "### " ++ T1 ++ S "\n", S "## " ++ B ++ S "\n",
          S "### " ++ T2 ++ S "\n"]).section_slugs
        = [slugify B, slugify A] := by
    have hfold : segmentDoc [S "---\n", S "## " ++ A ++ S "\n",
          S "### " ++ T1 ++ S "\n", S "## " ++ B ++ S "\n",
          S "### " ++ T2 ++ S "\n"]
        = step (step (step (step (step initState (S "---\n"))
            (S "## " ++ A ++ S "\n")) (S "### " ++ T1 ++ S "\n"))
            (S "## " ++ B ++ S "\n")) (S "### " ++ T2 ++ S "\n") := rfl
    rw [hfold, step_unseen_delim initState rfl rfl,
        step_h2 _ A rfl rfl hA, hsub1,
        step_subsection _ 3 T1 (slugify A) rfl rfl (by omega) (by omega) hT1 rfl,
        step_h2 _ B rfl rfl hB, hsub2,
        step_subsection _ 3 T2 (slugify B) rfl rfl (by omega) (by omega) hT2 rfl]
    constructor
    · simp [appendCur, initState, hcoll]
    · simp [appendCur, initState]
  refine ⟨hfields.1, ?_, ?_⟩
  · rw [hfields.1]
    simp [lookupOwner]
  · have hmem : slugify T1 ∉ (segmentDoc [S "---\n", S "## " ++ A ++ S "\n",
        S "### " ++ T1 ++ S "\n", S "## " ++ B ++ S "\n",
        S "### " ++ T2 ++ S "\n"]).section_slugs := by
      rw [hfields.2]
      simp [hsecA, hsecB]
    have hlk : lookupOwner (segmentDoc [S "---\n", S "## " ++ A ++ S "\n",
        S "### " ++ T1 ++ S "\n", S "## " ++ B ++ S "\n",
        S "### " ++ T2 ++ S "\n"]).subsection_slugs (slugify T1)
        = some (some (slugify B)) := by
      rw [hfields.1]
      simp [lookupOwner]
    rw [substitute_link_sub _ _ _ _ hmem hlk]
    rfl

/-- Witness for C10: "Detail" and "DETAIL" both slugify to `detail`; the
registry maps `detail` to the later section `beta` and a link to `detail`
resolves into `beta.html`. -/
theorem C10_witness :
    (segmentDoc [S "---\n", S "## " ++ S "Alpha" ++ S "\n",
        S "### " ++ S "Detail" ++ S "\n", S "## " ++ S "Beta" ++ S "\n",
        S "### " ++ S "DETAIL" ++ S "\n"]).subsection_slugs
      = [(slugify (S "Detail"), some (slugify (S "Beta"))),
         (slugify (S "Detail"), some (slugify (S "Alpha")))]
    ∧ lookupOwner (segmentDoc [S "---\n", S "## " ++ S "Alpha" ++ S "\n",
        S "### " ++ S "Detail" ++ S "\n", S "## " ++ S "Beta" ++ S "\n",
        S "### " ++ S "DETAIL" ++ S "\n"]).subsection_slugs (slugify (S "Detail"))
      = some (some (slugify (S "Beta")))
    ∧ substitute_link
        (segmentDoc [S "---\n", S "## " ++ S "Alpha" ++ S "\n",
          S "### " ++ S "Detail" ++ S "\n", S "## " ++ S "Beta" ++ S "\n",
          S "### " ++ S "DETAIL" ++ S "\n"]).section_slugs
        (segmentDoc [S "---\n", S "## " ++ S "Alpha" ++ S "\n",
          S "### " ++ S "Detail" ++ S "\n", S "## " ++ S "Beta" ++ S "\n",
          S "### " ++ S "DETAIL" ++ S "\n"]).subsection_slugs
        (slugify (S "Detail"))
      = (S "](" ++ slugify (S "Beta") ++ S ".html#" ++ slugify (S "Detail") ++ S ")", []) :=
  C10_duplicate_subsection (S "Alpha") (S "Beta") (S "Detail") (S "DETAIL")
    (by decide) (by decide) (by decide) (by decide) (by decide) (by decide) (by decide)
